import Mathlib

/-!
Shallow embedding of the GitHub PR Contributor Sorter content script
(src/content.js).

Modelling conventions:
* JavaScript `Map`s are association lists kept in insertion order
  (`Map.set` updates in place, else appends; `Map.delete` removes the
  entry with the key).
* `Array.prototype.sort` is stable per ECMA-262; it is modelled by the
  stable insertion sort `jsSortBy le` with `le a b := cmp a b ≤ 0`
  (an element is kept before another whenever the comparator does not
  force a swap).
* Timestamps are naturals (milliseconds); `Date.now() - t` uses
  truncated subtraction, which agrees with the code's behaviour (a
  future timestamp reads as age 0, hence as fresh).
* Network responses are oracles passed explicitly; the 500 ms
  inter-request delay has no observable effect in the model and is not
  represented.
-/

namespace SortPR

open List

/-- JS `Map.prototype.get`: value of the first entry with the key. -/
def jsMapGet (k : Nat) : List (Nat × β) → Option β
  | [] => none
  | (k2, v) :: t => if k2 = k then some v else jsMapGet k t

/-- JS `Map.prototype.set`: update in place keeping the entry's
position when the key is present, otherwise append. -/
def jsMapSet (k : Nat) (v : β) : List (Nat × β) → List (Nat × β)
  | [] => [(k, v)]
  | (k2, v2) :: t => if k2 = k then (k2, v) :: t else (k2, v2) :: jsMapSet k v t

/-- JS `Map.prototype.delete`: drop the entry with the key. -/
def jsMapDelete (k : Nat) : List (Nat × β) → List (Nat × β)
  | [] => []
  | (k2, v2) :: t => if k2 = k then t else (k2, v2) :: jsMapDelete k t

/-- One insertion step of the stable sort: place `a` before the first
element it is not forced after. -/
def jsInsert (le : α → α → Bool) (a : α) : List α → List α
  | [] => [a]
  | b :: t => if le a b then a :: b :: t else b :: jsInsert le a t

/-- Stable sort modelling JS `Array.prototype.sort` with a comparator
`cmp`, instantiated with `le a b := cmp a b ≤ 0`. -/
def jsSortBy (le : α → α → Bool) : List α → List α
  | [] => []
  | a :: t => jsInsert le a (jsSortBy le t)

theorem jsInsert_perm (le : α → α → Bool) (a : α) (l : List α) :
    jsInsert le a l ~ a :: l := by
  induction l with
  | nil => simp [jsInsert]
  | cons b t ih =>
    by_cases h : le a b = true
    · simp [jsInsert, h]
    · simp only [jsInsert, h]
      simp only [Bool.false_eq_true, if_false]
      exact ((ih.cons b).trans (List.Perm.swap a b t))

theorem jsSortBy_perm (le : α → α → Bool) (l : List α) : jsSortBy le l ~ l := by
  induction l with
  | nil => simp [jsSortBy]
  | cons a t ih => exact (jsInsert_perm le a (jsSortBy le t)).trans (ih.cons a)

theorem mem_jsInsert {le : α → α → Bool} {a x : α} {l : List α} :
    x ∈ jsInsert le a l ↔ x = a ∨ x ∈ l := by
  rw [(jsInsert_perm le a l).mem_iff, List.mem_cons]

theorem jsInsert_pairwise {le : α → α → Bool}
    (htot : ∀ a b, le a b = true ∨ le b a = true)
    (htr : ∀ a b c, le a b = true → le b c = true → le a c = true)
    {a : α} {l : List α} (h : l.Pairwise (fun x y => le x y = true)) :
    (jsInsert le a l).Pairwise (fun x y => le x y = true) := by
  induction l with
  | nil => simp [jsInsert]
  | cons b t ih =>
    rcases List.pairwise_cons.mp h with ⟨hb, ht⟩
    by_cases hab : le a b = true
    · simp only [jsInsert, hab, if_true]
      refine List.pairwise_cons.mpr ⟨?_, h⟩
      intro x hx
      rcases List.mem_cons.mp hx with rfl | hx
      · exact hab
      · exact htr a b x hab (hb x hx)
    · simp only [jsInsert, hab]
      simp only [Bool.false_eq_true, if_false]
      refine List.pairwise_cons.mpr ⟨?_, ih ht⟩
      intro x hx
      rcases mem_jsInsert.mp hx with rfl | hx
      · rcases htot x b with hxb | hbx
        · exact absurd hxb hab
        · exact hbx
      · exact hb x hx

theorem jsSortBy_pairwise {le : α → α → Bool}
    (htot : ∀ a b, le a b = true ∨ le b a = true)
    (htr : ∀ a b c, le a b = true → le b c = true → le a c = true)
    (l : List α) :
    (jsSortBy le l).Pairwise (fun x y => le x y = true) := by
  induction l with
  | nil => simp [jsSortBy]
  | cons a t ih => exact jsInsert_pairwise htot htr ih

theorem sublist_jsInsert (le : α → α → Bool) (a : α) (l : List α) :
    l <+ jsInsert le a l := by
  induction l with
  | nil => simp [jsInsert]
  | cons b t ih =>
    by_cases h : le a b = true
    · simp only [jsInsert, h, if_true]
      exact List.Sublist.cons a (List.Sublist.refl (b :: t))
    · simp only [jsInsert, h]
      simp only [Bool.false_eq_true, if_false]
      exact List.Sublist.cons₂ b ih

theorem jsInsert_sublist_of_mem {le : α → α → Bool} {u v : α} {l : List α}
    (hv : v ∈ l) (hle : le u v = true) : [u, v] <+ jsInsert le u l := by
  induction l with
  | nil => cases hv
  | cons b t ih =>
    by_cases h : le u b = true
    · simp only [jsInsert, h, if_true]
      exact List.Sublist.cons₂ u (List.singleton_sublist.mpr hv)
    · simp only [jsInsert, h]
      simp only [Bool.false_eq_true, if_false]
      rcases List.mem_cons.mp hv with rfl | hv
      · exact absurd hle h
      · exact List.Sublist.cons b (ih hv)

theorem jsSortBy_stable {le : α → α → Bool} {u v : α} :
    ∀ {l : List α}, [u, v] <+ l → le u v = true → [u, v] <+ jsSortBy le l := by
  intro l
  induction l with
  | nil => intro h _; cases h
  | cons a t ih =>
    intro h hle
    cases h with
    | cons _ h2 => exact (ih h2 hle).trans (sublist_jsInsert le a (jsSortBy le t))
    | cons₂ _ h2 =>
      have hv : v ∈ jsSortBy le t :=
        (jsSortBy_perm le t).mem_iff.mpr (List.singleton_sublist.mp h2)
      exact jsInsert_sublist_of_mem hv hle

theorem jsInsert_eq_cons {le : α → α → Bool} {a : α} {l : List α}
    (h : ∀ x ∈ l, le a x = true) : jsInsert le a l = a :: l := by
  cases l with
  | nil => rfl
  | cons b t => simp [jsInsert, h b (List.mem_cons_self b t)]

theorem indexOf_jsInsert [DecidableEq α] (le : α → α → Bool) {a m : α}
    (ha : a ≠ m) :
    ∀ {l : List α}, m ∈ l → le a m = true →
      (jsInsert le a l).indexOf m = l.indexOf m + 1 := by
  intro l
  induction l with
  | nil => intro h; cases h
  | cons b t ih =>
    intro hm hle
    by_cases hab : le a b = true
    · simp only [jsInsert, hab, if_true]
      rw [List.indexOf_cons_ne _ ha]
    · simp only [jsInsert, hab]
      simp only [Bool.false_eq_true, if_false]
      have hbm : b ≠ m := by
        rintro rfl
        exact hab hle
      have hmt : m ∈ t := by
        rcases List.mem_cons.mp hm with rfl | h
        · exact absurd rfl hbm
        · exact h
      rw [List.indexOf_cons_ne _ hbm, List.indexOf_cons_ne _ hbm, ih hmt hle]

theorem jsSortBy_indexOf [DecidableEq α] {le : α → α → Bool} {m : α} :
    ∀ {l : List α}, m ∈ l → (∀ x ∈ l, le m x = true ∧ le x m = true) →
      (jsSortBy le l).indexOf m = l.indexOf m := by
  intro l
  induction l with
  | nil => intro h; cases h
  | cons a t ih =>
    intro hm hall
    by_cases ham : a = m
    · subst ham
      have : jsInsert le a (jsSortBy le t) = a :: jsSortBy le t := by
        refine jsInsert_eq_cons ?_
        intro x hx
        exact (hall x (List.mem_cons_of_mem a ((jsSortBy_perm le t).mem_iff.mp hx))).1
      simp [jsSortBy, this]
    · have hmt : m ∈ t := by
        rcases List.mem_cons.mp hm with rfl | h
        · exact absurd rfl ham
        · exact h
      have hms : m ∈ jsSortBy le t := (jsSortBy_perm le t).mem_iff.mpr hmt
      have hla : le a m = true := (hall a (List.mem_cons_self a t)).2
      have := indexOf_jsInsert le ham hms hla
      simp only [jsSortBy]
      rw [this, ih hmt (fun x hx => hall x (List.mem_cons_of_mem a hx)),
        List.indexOf_cons_ne _ ham]

theorem sorted_perm_unique (key : α → Nat) :
    ∀ {l₂ l₁ : List α}, l₁ ~ l₂ →
      l₁.Pairwise (fun a b => key a ≤ key b) →
      l₂.Pairwise (fun a b => key a < key b) → l₁ = l₂ := by
  intro l₂
  induction l₂ with
  | nil => intro l₁ hp _ _; exact hp.eq_nil
  | cons a t ih =>
    intro l₁ hp h₁ h₂
    cases l₁ with
    | nil => exact absurd hp.symm.eq_nil (by simp)
    | cons b t₁ =>
      rcases List.pairwise_cons.mp h₁ with ⟨hb, ht₁⟩
      rcases List.pairwise_cons.mp h₂ with ⟨ha, ht₂⟩
      have hba : b = a := by
        by_contra hne
        have hbmem : b ∈ a :: t := hp.mem_iff.mp (List.mem_cons_self b t₁)
        have hbt : b ∈ t := by
          rcases List.mem_cons.mp hbmem with rfl | h
          · exact absurd rfl hne
          · exact h
        have hab : key a < key b := ha b hbt
        have hamem : a ∈ b :: t₁ := hp.symm.mem_iff.mp (List.mem_cons_self a t)
        have hat : a ∈ t₁ := by
          rcases List.mem_cons.mp hamem with h | h
          · exact absurd h.symm hne
          · exact h
        have hba2 : key b ≤ key a := hb a hat
        omega
      subst hba
      have := ih (hp.cons_inv) ht₁ ht₂
      rw [this]

theorem jsSortBy_eq_of_perm (key : α → Nat) {le : α → α → Bool}
    (hle : ∀ a b, le a b = true ↔ key a ≤ key b) {l₂ l : List α}
    (h : l₂ ~ l) (hl : l.Pairwise (fun a b => key a < key b)) :
    jsSortBy le l₂ = l := by
  have htot : ∀ a b, le a b = true ∨ le b a = true := by
    intro a b
    rcases Nat.le_total (key a) (key b) with h | h
    · exact Or.inl ((hle a b).mpr h)
    · exact Or.inr ((hle b a).mpr h)
  have htr : ∀ a b c, le a b = true → le b c = true → le a c = true := by
    intro a b c h1 h2
    exact (hle a c).mpr (Nat.le_trans ((hle a b).mp h1) ((hle b c).mp h2))
  refine sorted_perm_unique key ((jsSortBy_perm le l₂).trans h) ?_ hl
  have := jsSortBy_pairwise htot htr l₂
  exact this.imp (fun h => (hle _ _).mp h)

/-! ### Data model: contributor records and the cache store -/

/-- A fetched PR record (`{number, author_association, created_at, user}`
as assembled by `fetchPRDetails` / `fetchPRDataGraphQL`). -/
structure PRRecord where
  number : Nat
  author_association : String
  created_at : String
  user : String
  deriving DecidableEq, Repr

/-- A cache entry (`{data, timestamp}` as stored by `setCache`). -/
structure CacheEntry where
  data : PRRecord
  timestamp : Nat
  deriving DecidableEq, Repr

/-- `this.prData`: the in-memory per-session record map. -/
abbrev PrMap := List (Nat × PRRecord)

/-- `this.cache`: the in-memory cache map mirrored to storage. -/
abbrev Cache := List (Nat × CacheEntry)

/-- `this.cacheExpiry = 30 * 60 * 1000` (30 minutes in ms). -/
def cacheExpiry : Nat := 30 * 60 * 1000

/-- `saveCacheToStorage`: persists the snapshot; if more than 200
entries are held, the entries are stably sorted by descending timestamp
and only the first 150 are kept (also as the new in-memory cache). -/
def saveCacheToStorage (c : Cache) : Cache :=
  if c.length > 200 then
    (jsSortBy (fun a b => decide (b.2.timestamp ≤ a.2.timestamp)) c).take 150
  else c

/-- `setCache(prNumber, data)`: insert/overwrite with the current
timestamp, then persist (which may evict). -/
def setCache (prNumber : Nat) (data : PRRecord) (now : Nat) (c : Cache) : Cache :=
  saveCacheToStorage (jsMapSet prNumber ⟨data, now⟩ c)

/-- `getFromCache(prNumber)`: return the record when a fresh entry
exists; delete the entry (and persist) when it is present but expired.
Returns the result together with the possibly-updated cache. -/
def getFromCache (prNumber : Nat) (now : Nat) (c : Cache) :
    Option PRRecord × Cache :=
  match jsMapGet prNumber c with
  | some e =>
    if now - e.timestamp < cacheExpiry then (some e.data, c)
    else (none, saveCacheToStorage (jsMapDelete prNumber c))
  | none => (none, c)

/-- `clearExpiredCache()`: drop every entry whose age reached the TTL;
persist (which may also evict) only when something was dropped. -/
def clearExpiredCache (now : Nat) (c : Cache) : Cache :=
  let kept := c.filter (fun e => decide (now - e.2.timestamp < cacheExpiry))
  if kept.length < c.length then saveCacheToStorage kept else c

/-! ### Identifier extraction -/

/-- Numeric value of a digit run (the `parseInt` of the capture). -/
def digitsToNat (ds : List Char) : Nat :=
  ds.foldl (fun n c => n * 10 + (c.toNat - 48)) 0

/-- Leftmost match of the regex `\/pull\/(\d+)` over a character list:
at each position, require the literal `/pull/` followed by at least one
digit and take the maximal digit run; otherwise advance one character. -/
def findPullNumber : List Char → Option Nat
  | [] => none
  | c :: cs =>
    if "/pull/".toList.isPrefixOf (c :: cs) then
      let ds := ((c :: cs).drop 6).takeWhile Char.isDigit
      if ds.isEmpty then findPullNumber cs else some (digitsToNat ds)
    else findPullNumber cs

/-- `extractPRNumber(prElement)`: `null` when the element or its href
is absent or the regex does not match, else the parsed number.  An
element is modelled by its optional href string. -/
def extractPRNumber (href : Option String) : Option Nat :=
  href.bind (fun s => findPullNumber s.toList)

/-- `const maxPRs = this.githubToken ? 50 : 10`. -/
def maxPRs (githubToken : Option String) : Nat :=
  if githubToken.isSome then 50 else 10

/-- The extraction phase of `fetchPRData`: truncate the anchor elements
to `maxPRs`, map `extractPRNumber`, and keep the truthy results
(`filter(num => num)` drops both `null` and `0`). -/
def allPRNumbers (hrefs : List (Option String)) (githubToken : Option String) :
    List Nat :=
  (((hrefs.take (maxPRs githubToken)).map extractPRNumber).filterMap id).filter
    (fun n => decide (n ≠ 0))

/-- First-occurrence deduplication, as the spec describes the
extractor's output (keep the first copy of each identifier). -/
def firstOccurrences (seen : List Nat) : List Nat → List Nat
  | [] => []
  | n :: t =>
    if n ∈ seen then firstOccurrences seen t
    else n :: firstOccurrences (n :: seen) t

/-- Modelled from the spec (section 4.1), for comparison with the code:
"an ordered sequence of unique Identifiers, first-occurrence order
preserved, truncated to maxCount" where maxCount is 50 when
authenticated and 10 otherwise. -/
def specExtractorOutput (hrefs : List (Option String))
    (githubToken : Option String) : List Nat :=
  (firstOccurrences []
    (((hrefs.map extractPRNumber).filterMap id).filter (fun n => decide (n ≠ 0)))).take
    (maxPRs githubToken)

/-! ### Classifier -/

/-- `getContributorPriority(authorAssociation)`: tier 1 for new
contributors, tier 2 otherwise. -/
def getContributorPriority (authorAssociation : String) : Nat :=
  let newContributorStatuses := ["FIRST_TIMER", "FIRST_TIME_CONTRIBUTOR", "NONE"]
  if newContributorStatuses.contains authorAssociation then 1 else 2

/-! ### Orderer: `applySorting` and `restoreDefaultOrder`

A PR row element is modelled by the data the orderer reads from it: the
PR number extracted from its pull link (`extractPRNumber` applied to
its anchor, `none` when the row has no matching anchor or no number)
and its `data-original-index` attribute (`none` when never stamped).
The container carries its `data-original-order` attribute as a flag. -/

structure PRItem where
  prNumber : Option Nat
  origIdx : Option Nat
  deriving DecidableEq, Repr

structure Container where
  originalOrderStamped : Bool
  items : List PRItem
  deriving DecidableEq, Repr

/-- The record the comparator sees for an item:
`this.prData.get(this.extractPRNumber(...))`. -/
def itemRecord (prData : PrMap) (it : PRItem) : Option PRRecord :=
  it.prNumber.bind (fun k => jsMapGet k prData)

/-- The comparator of `applySorting`: `0` when either record is
unavailable, else the tier difference (sign depending on the order). -/
def sortComparator (prData : PrMap) (sortOrder : String) (a b : PRItem) : Int :=
  match itemRecord prData a, itemRecord prData b with
  | some dataA, some dataB =>
    let priorityA : Int := getContributorPriority dataA.author_association
    let priorityB : Int := getContributorPriority dataB.author_association
    if sortOrder == "new-first" then priorityA - priorityB
    else priorityB - priorityA
  | _, _ => 0

/-- `el.setAttribute('data-original-index', index)` over the item list
(`forEach` with its running index). -/
def stampFrom (i : Nat) : List PRItem → List PRItem
  | [] => []
  | it :: t => { it with origIdx := some i } :: stampFrom (i + 1) t

/-- Stamp every item with its current position. -/
def stampItems (l : List PRItem) : List PRItem := stampFrom 0 l

/-- `applySorting()`: bail out when no rows are found; stamp original
positions on the first invocation only (guarded by the container
attribute); stably sort by the tier comparator and re-append. -/
def applySorting (prData : PrMap) (sortOrder : String) (c : Container) :
    Container :=
  if c.items.isEmpty then c
  else
    let items := if c.originalOrderStamped then c.items else stampItems c.items
    { originalOrderStamped := true,
      items := jsSortBy
        (fun a b => decide (sortComparator prData sortOrder a b ≤ 0)) items }

/-- `parseInt(el.getAttribute('data-original-index') || '0')`. -/
def originalIndexKey (it : PRItem) : Nat := it.origIdx.getD 0

/-- `restoreDefaultOrder()`: stably sort the rows by their stamped
original index, ascending, and re-append. -/
def restoreDefaultOrder (c : Container) : Container :=
  { c with
    items := jsSortBy
      (fun a b =>
        decide ((originalIndexKey a : Int) - originalIndexKey b ≤ 0))
      c.items }

/-! ### Remote fetcher -/

/-- Response of one REST request for `{collection}/{identifier}`. -/
inductive NetResp where
  | ok (author_association created_at user : String)
  | httpError (status : Nat) (statusText : String)
  deriving DecidableEq, Repr

/-- JS `String.prototype.includes`. -/
def strContains (s sub : String) : Bool := decide (sub.toList <:+: s.toList)

/-- The message thrown by `fetchPRDetails` on HTTP 403. -/
def msg403 : String :=
  "GitHub API rate limit exceeded (403). Add a GitHub token for unlimited requests."

/-- The message thrown by `fetchPRDataREST` when it stops on a rate
limit. -/
def msgAbort : String :=
  "GitHub API rate limit exceeded. Please add a GitHub token for unlimited requests."

/-- `fetchPRDetails(prNumber)`: one REST request; 403 throws the rate
limit message, any other non-ok status throws a generic message built
from status and status text; on success the record is assembled with
the requested number. -/
def fetchPRDetails (net : Nat → NetResp) (prNumber : Nat) :
    Except String PRRecord :=
  match net prNumber with
  | .ok assoc created user => .ok ⟨prNumber, assoc, created, user⟩
  | .httpError status statusText =>
    if status = 403 then .error msg403
    else .error ("GitHub API error: " ++ toString status ++ " - " ++ statusText)

/-- `fetchPRDataREST(prNumbers)`: iterate the identifiers; re-check the
cache first; on success store in `prData` and the cache; a thrown error
whose message contains `'403'` aborts the whole loop with `msgAbort`;
any other error is logged and the loop continues.  The first component
is the propagated error, if any; instance state survives the throw. -/
def fetchPRDataREST (net : Nat → NetResp) (now : Nat) :
    List Nat → PrMap × Cache → Option String × PrMap × Cache
  | [], (p, c) => (none, p, c)
  | prNumber :: rest, (p, c) =>
    match getFromCache prNumber now c with
    | (some cached, c2) =>
      fetchPRDataREST net now rest (jsMapSet prNumber cached p, c2)
    | (none, c2) =>
      match fetchPRDetails net prNumber with
      | .ok d =>
        fetchPRDataREST net now rest
          (jsMapSet prNumber d p, setCache prNumber d now c2)
      | .error m =>
        if strContains m "403" then (some msgAbort, p, c2)
        else fetchPRDataREST net now rest (p, c2)

/-- The GraphQL batch response: a transport failure, or a JSON payload
with an optional `errors` field and per-position sub-results (already
normalized to the record `fetchPRDataGraphQL` assembles; a missing
position means no data for that sub-query). -/
inductive GqlResp where
  | transportFail (status : Nat) (statusText : String)
  | payload (errors : Option String) (results : Nat → Option PRRecord)

/-- The `prNumbers.forEach((prNumber, index) => ...)` commit loop of a
successful batch: cache every present sub-result, skip missing ones. -/
def commitGqlResults (results : Nat → Option PRRecord) (now : Nat) :
    Nat → List Nat → PrMap × Cache → PrMap × Cache
  | _, [], s => s
  | index, prNumber :: rest, (p, c) =>
    match results index with
    | some d =>
      commitGqlResults results now (index + 1) rest
        (jsMapSet prNumber d p, setCache prNumber d now c)
    | none => commitGqlResults results now (index + 1) rest (p, c)

/-- `fetchPRDataGraphQL(prNumbers)`: throw on transport failure or on a
response-level `errors` payload, both before committing anything;
otherwise commit every returned sub-result. -/
def fetchPRDataGraphQL (resp : GqlResp) (now : Nat) (prNumbers : List Nat)
    (p : PrMap) (c : Cache) : Option String × PrMap × Cache :=
  match resp with
  | .transportFail status statusText =>
    (some ("GraphQL API error: " ++ toString status ++ " - " ++ statusText), p, c)
  | .payload (some errs) _ => (some ("GraphQL errors: " ++ errs), p, c)
  | .payload none results =>
    let s := commitGqlResults results now 0 prNumbers (p, c)
    (none, s.1, s.2)

/-- Whether the batch response is one of the two failure shapes. -/
def gqlFails : GqlResp → Bool
  | .transportFail _ _ => true
  | .payload (some _) _ => true
  | .payload none _ => false

/-- Strategy selection and fallback of `fetchPRData` (lines 123-133):
batch when authenticated with more than 3 outstanding identifiers,
falling back to the sequential strategy over the same identifier set
when the batch throws; sequential directly otherwise. -/
def fetchDispatch (githubToken : Option String) (gresp : GqlResp)
    (net : Nat → NetResp) (now : Nat) (prNumbersToFetch : List Nat)
    (p : PrMap) (c : Cache) : Option String × PrMap × Cache :=
  if githubToken.isSome && decide (prNumbersToFetch.length > 3) then
    match fetchPRDataGraphQL gresp now prNumbersToFetch p c with
    | (none, p2, c2) => (none, p2, c2)
    | (some _, p2, c2) => fetchPRDataREST net now prNumbersToFetch (p2, c2)
  else fetchPRDataREST net now prNumbersToFetch (p, c)

/-- The cache-loading loop of `fetchPRData`: for each extracted number
not yet in `prData`, consult the cache (with its expiry side effect)
and adopt a hit into `prData`. -/
def loadCachedData (now : Nat) : List Nat → PrMap → Cache → PrMap × Cache
  | [], p, c => (p, c)
  | n :: t, p, c =>
    if (jsMapGet n p).isSome then loadCachedData now t p c
    else
      match getFromCache n now c with
      | (some d, c2) => loadCachedData now t (jsMapSet n d p) c2
      | (none, c2) => loadCachedData now t p c2

/-- State of `fetchPRData` after expiry sweep and cache loading. -/
def afterCacheLoad (hrefs : List (Option String)) (githubToken : Option String)
    (now : Nat) (p : PrMap) (c : Cache) : PrMap × Cache :=
  loadCachedData now (allPRNumbers hrefs githubToken) p (clearExpiredCache now c)

/-- `prNumbersToFetch`: the extracted numbers still absent from
`prData` after cache loading. -/
def prNumbersToFetch (hrefs : List (Option String)) (githubToken : Option String)
    (now : Nat) (p : PrMap) (c : Cache) : List Nat :=
  (allPRNumbers hrefs githubToken).filter
    (fun n => (jsMapGet n (afterCacheLoad hrefs githubToken now p c).1).isNone)

/-- `fetchPRData()`: sweep expired entries, extract numbers, load
cached data, return immediately when nothing is left to fetch, else
dispatch to a strategy.  The first component is the propagated error,
if any. -/
def fetchPRData (hrefs : List (Option String)) (githubToken : Option String)
    (gresp : GqlResp) (net : Nat → NetResp) (now : Nat) (p : PrMap)
    (c : Cache) : Option String × PrMap × Cache :=
  let s := afterCacheLoad hrefs githubToken now p c
  let toFetch := prNumbersToFetch hrefs githubToken now p c
  if toFetch.isEmpty then (none, s.1, s.2)
  else fetchDispatch githubToken gresp net now toFetch s.1 s.2

/-! ### The trigger handler -/

/-- The `{success, message}` payload sent back to the popup. -/
structure SortResponse where
  success : Bool
  message : String
  deriving DecidableEq, Repr

/-- The instance state `handleSortRequest` touches. -/
structure SessionState where
  prData : PrMap
  cache : Cache
  sortOrder : String
  container : Container
  deriving Repr

/-- `handleSortRequest(sortOrder)`: reject non-PR-listing pages
immediately; persist the requested order; `'default'` restores without
fetching; otherwise fetch then sort, turning a propagated error into a
failure response. -/
def handleSortRequest (url sortOrder : String) (githubToken : Option String)
    (hrefs : List (Option String)) (gresp : GqlResp) (net : Nat → NetResp)
    (now : Nat) (st : SessionState) : SortResponse × SessionState :=
  if !(strContains url "github.com" && strContains url "/pulls") then
    (⟨false, "Not on a GitHub pull requests page"⟩, st)
  else
    let st := { st with sortOrder := sortOrder }
    if sortOrder == "default" then
      (⟨true, "Restored to default order"⟩,
        { st with container := restoreDefaultOrder st.container })
    else
      match fetchPRData hrefs githubToken gresp net now st.prData st.cache with
      | (some errMsg, p2, c2) =>
        (⟨false, "Error sorting PRs: " ++ errMsg⟩,
          { st with prData := p2, cache := c2 })
      | (none, p2, c2) =>
        let st2 := { st with prData := p2, cache := c2 }
        (⟨true,
          "Sorted by "
            ++ (if sortOrder == "new-first" then "new contributors"
                else "existing contributors")
            ++ " successfully!"⟩,
          { st2 with container := applySorting p2 sortOrder st2.container })

/-! ### Helper lemmas about the map and cache operations -/

theorem jsMapGet_set_self (k : Nat) (v : β) (m : List (Nat × β)) :
    jsMapGet k (jsMapSet k v m) = some v := by
  induction m with
  | nil => simp [jsMapGet, jsMapSet]
  | cons e t ih =>
    by_cases h : e.1 = k
    · simp [jsMapSet, jsMapGet, h]
    · simp [jsMapSet, jsMapGet, h, ih]

theorem jsMapGet_set_ne {k2 k : Nat} (h : k2 ≠ k) (v : β) (m : List (Nat × β)) :
    jsMapGet k (jsMapSet k2 v m) = jsMapGet k m := by
  induction m with
  | nil => simp [jsMapGet, jsMapSet, h]
  | cons e t ih =>
    by_cases he : e.1 = k2
    · simp [jsMapSet, jsMapGet, he, h]
    · simp only [jsMapSet, he, if_false, jsMapGet]
      by_cases hek : e.1 = k
      · simp [hek]
      · simp [hek, ih]

theorem jsMapSet_length (k : Nat) (v : β) (m : List (Nat × β)) :
    (jsMapSet k v m).length = m.length ∨
      (jsMapSet k v m).length = m.length + 1 := by
  induction m with
  | nil => simp [jsMapSet]
  | cons e t ih =>
    by_cases h : e.1 = k
    · simp [jsMapSet, h]
    · simp only [jsMapSet, h, if_false, List.length_cons]
      rcases ih with h2 | h2
      · exact Or.inl (by simp [h2])
      · exact Or.inr (by simp [h2])

theorem jsMapGet_eq_none_iff {k : Nat} {m : List (Nat × β)} :
    jsMapGet k m = none ↔ ∀ e ∈ m, e.1 ≠ k := by
  induction m with
  | nil => simp [jsMapGet]
  | cons e t ih =>
    by_cases h : e.1 = k
    · simp [jsMapGet, h]
    · simp [jsMapGet, h, ih]

theorem jsMapGet_not_mem_keys {k : Nat} {m : List (Nat × β)}
    (h : ∀ e ∈ m, e.1 ≠ k) : jsMapGet k m = none :=
  jsMapGet_eq_none_iff.mpr h

theorem jsMapGet_delete_self {k : Nat} {m : List (Nat × β)}
    (h : (m.map Prod.fst).Nodup) : jsMapGet k (jsMapDelete k m) = none := by
  induction m with
  | nil => simp [jsMapDelete, jsMapGet]
  | cons e t ih =>
    rcases List.pairwise_cons.mp h with ⟨hk, ht⟩
    by_cases he : e.1 = k
    · simp only [jsMapDelete, he, if_true]
      refine jsMapGet_not_mem_keys ?_
      intro x hx
      have := hk x.1 (List.mem_map_of_mem Prod.fst hx)
      rw [he] at this
      exact this.symm
    · simp [jsMapDelete, he, jsMapGet, ih ht]

theorem jsMapSet_mem_keys {k : Nat} {v : β} {m : List (Nat × β)} {x : Nat × β}
    (h : x ∈ jsMapSet k v m) : x.1 = k ∨ x ∈ m := by
  induction m with
  | nil =>
    simp only [jsMapSet, List.mem_singleton] at h
    exact Or.inl (by simp [h])
  | cons e t ih =>
    by_cases he : e.1 = k
    · simp only [jsMapSet, he, if_true, List.mem_cons] at h
      rcases h with rfl | h
      · exact Or.inl rfl
      · exact Or.inr (List.mem_cons_of_mem e h)
    · simp only [jsMapSet, he, if_false, List.mem_cons] at h
      rcases h with rfl | h
      · exact Or.inr (List.mem_cons_self _ _)
      · rcases ih h with h2 | h2
        · exact Or.inl h2
        · exact Or.inr (List.mem_cons_of_mem e h2)

theorem jsMapSet_keys_nodup {k : Nat} {v : β} {m : List (Nat × β)}
    (h : (m.map Prod.fst).Nodup) :
    ((jsMapSet k v m).map Prod.fst).Nodup := by
  induction m with
  | nil => simp [jsMapSet]
  | cons e t ih =>
    rcases List.pairwise_cons.mp h with ⟨hk, ht⟩
    by_cases he : e.1 = k
    · simpa [jsMapSet, he] using h
    · simp only [jsMapSet, he, if_false, List.map_cons]
      refine List.pairwise_cons.mpr ⟨?_, ih ht⟩
      intro x hx
      rcases List.mem_map.mp hx with ⟨y, hy, rfl⟩
      rcases (jsMapSet_mem_keys hy) with h2 | h2
      · rw [h2]
        intro hek
        exact he hek
      · exact hk y.1 (List.mem_map_of_mem Prod.fst h2)

theorem saveCacheToStorage_of_le {c : Cache} (h : c.length ≤ 200) :
    saveCacheToStorage c = c := by
  simp only [saveCacheToStorage]
  rw [if_neg]
  omega

theorem saveCacheToStorage_length_of_gt {c : Cache} (h : 200 < c.length) :
    (saveCacheToStorage c).length = 150 := by
  simp only [saveCacheToStorage]
  rw [if_pos (by omega)]
  rw [List.length_take,
    (jsSortBy_perm (fun a b => decide (b.2.timestamp ≤ a.2.timestamp)) c).length_eq]
  omega

theorem saveCacheToStorage_mem {c : Cache} {e : Nat × CacheEntry}
    (h : e ∈ saveCacheToStorage c) : e ∈ c := by
  simp only [saveCacheToStorage] at h
  by_cases hl : c.length > 200
  · rw [if_pos hl] at h
    exact (jsSortBy_perm _ c).mem_iff.mp (List.mem_of_mem_take h)
  · rwa [if_neg hl] at h

theorem jsMapGet_save_none {k : Nat} {c : Cache}
    (h : jsMapGet k c = none) : jsMapGet k (saveCacheToStorage c) = none := by
  refine jsMapGet_not_mem_keys ?_
  intro e he
  exact jsMapGet_eq_none_iff.mp h e (saveCacheToStorage_mem he)

theorem setCache_length_le (prNumber : Nat) (data : PRRecord) (now : Nat)
    (c : Cache) : (setCache prNumber data now c).length ≤ 200 ∨
      (setCache prNumber data now c).length ≤ c.length := by
  unfold setCache
  rcases jsMapSet_length prNumber (⟨data, now⟩ : CacheEntry) c with h | h
  · by_cases hl : (jsMapSet prNumber (⟨data, now⟩ : CacheEntry) c).length ≤ 200
    · rw [saveCacheToStorage_of_le hl]
      exact Or.inl hl
    · rw [saveCacheToStorage_length_of_gt (by omega)]
      exact Or.inl (by omega)
  · by_cases hl : (jsMapSet prNumber (⟨data, now⟩ : CacheEntry) c).length ≤ 200
    · rw [saveCacheToStorage_of_le hl]
      exact Or.inl hl
    · rw [saveCacheToStorage_length_of_gt (by omega)]
      exact Or.inl (by omega)

theorem setCache_length_le_200 (prNumber : Nat) (data : PRRecord) (now : Nat)
    (c : Cache) : (setCache prNumber data now c).length ≤ 200 := by
  unfold setCache
  by_cases hl : (jsMapSet prNumber (⟨data, now⟩ : CacheEntry) c).length ≤ 200
  · rw [saveCacheToStorage_of_le hl]
    exact hl
  · rw [saveCacheToStorage_length_of_gt (by omega)]
    omega

/-- Folding a sequence of `setCache` calls (the puts of a run). -/
def foldPuts (ops : List (Nat × PRRecord × Nat)) (c : Cache) : Cache :=
  ops.foldl (fun c op => setCache op.1 op.2.1 op.2.2 c) c

theorem foldPuts_length_le :
    ∀ (ops : List (Nat × PRRecord × Nat)) (c : Cache),
      c.length ≤ 200 ∨ ops ≠ [] → (foldPuts ops c).length ≤ 200 := by
  intro ops
  induction ops with
  | nil =>
    intro c h
    rcases h with h | h
    · exact h
    · exact absurd rfl h
  | cons op t ih =>
    intro c _
    simp only [foldPuts, List.foldl_cons]
    exact ih (setCache op.1 op.2.1 op.2.2 c)
      (Or.inl (setCache_length_le_200 op.1 op.2.1 op.2.2 c))

/-! ### Claim theorems -/

/-- C2: after any sequence of puts (from a within-capacity start, or
any nonempty sequence of puts from an arbitrary start) the cache holds
at most 200 entries; whenever the count exceeds 200, eviction collapses
to exactly 150 entries and every discarded entry's timestamp is at most
every kept entry's timestamp, with no regard to TTL. -/
theorem cache_capacity_eviction (c : Cache) (ops : List (Nat × PRRecord × Nat))
    (h : c.length ≤ 200 ∨ ops ≠ []) (c2 : Cache) (h2 : 200 < c2.length) :
    (foldPuts ops c).length ≤ 200
    ∧ (saveCacheToStorage c2).length = 150
    ∧ ∀ p ∈ saveCacheToStorage c2, ∀ q ∈ c2, q ∉ saveCacheToStorage c2 →
        q.2.timestamp ≤ p.2.timestamp := by
  refine ⟨foldPuts_length_le ops c h, saveCacheToStorage_length_of_gt h2, ?_⟩
  intro p hp q hq hqn
  have hsave : saveCacheToStorage c2 =
      (jsSortBy (fun a b => decide (b.2.timestamp ≤ a.2.timestamp)) c2).take 150 := by
    simp only [saveCacheToStorage]
    rw [if_pos (by omega)]
  set le := fun a b : Nat × CacheEntry => decide (b.2.timestamp ≤ a.2.timestamp)
    with hle
  have htot : ∀ a b, le a b = true ∨ le b a = true := by
    intro a b
    simp only [hle, decide_eq_true_eq]
    exact (Nat.le_total b.2.timestamp a.2.timestamp).imp id id
  have htr : ∀ a b c, le a b = true → le b c = true → le a c = true := by
    intro a b c h1 h2
    simp only [hle, decide_eq_true_eq] at h1 h2 ⊢
    omega
  have hpair := jsSortBy_pairwise htot htr c2
  have hsplit : jsSortBy le c2 =
      (jsSortBy le c2).take 150 ++ (jsSortBy le c2).drop 150 :=
    (List.take_append_drop 150 (jsSortBy le c2)).symm
  rw [hsplit] at hpair
  rcases List.pairwise_append.mp hpair with ⟨_, _, hcross⟩
  have hqs : q ∈ jsSortBy le c2 := (jsSortBy_perm le c2).mem_iff.mpr hq
  rw [hsplit] at hqs
  have hqdrop : q ∈ (jsSortBy le c2).drop 150 := by
    rcases List.mem_append.mp hqs with h3 | h3
    · exact absurd (by rw [hsave]; exact h3) hqn
    · exact h3
  have hptake : p ∈ (jsSortBy le c2).take 150 := by
    rw [hsave] at hp
    exact hp
  have := hcross p hptake q hqdrop
  simp only [hle, decide_eq_true_eq] at this
  exact this

/-- Witness for C2 at a concrete start, op sequence and overfull
cache. -/
theorem cache_capacity_eviction_witness :
    (foldPuts [(1, ⟨1, "MEMBER", "d", "u"⟩, 5)] []).length ≤ 200
    ∧ (saveCacheToStorage
        ((List.range 201).map (fun i => (i, ⟨⟨1, "MEMBER", "d", "u"⟩, i⟩)))).length = 150
    ∧ ∀ p ∈ saveCacheToStorage
        ((List.range 201).map (fun i => (i, ⟨⟨1, "MEMBER", "d", "u"⟩, i⟩))),
        ∀ q ∈ (List.range 201).map (fun i => (i, ⟨⟨1, "MEMBER", "d", "u"⟩, i⟩)),
          q ∉ saveCacheToStorage
            ((List.range 201).map (fun i => (i, ⟨⟨1, "MEMBER", "d", "u"⟩, i⟩))) →
            q.2.timestamp ≤ p.2.timestamp :=
  cache_capacity_eviction [] _ (Or.inl (by decide)) _ (by simp)

/-- C9: the classifier is a total deterministic function returning
tier 1 exactly on the three new-contributor association kinds and
tier 2 on every other string. -/
theorem classifier_total_deterministic :
    ∀ s : String,
      (getContributorPriority s = 1 ↔
        (s = "FIRST_TIMER" ∨ s = "FIRST_TIME_CONTRIBUTOR" ∨ s = "NONE"))
      ∧ (getContributorPriority s = 2 ↔
        ¬(s = "FIRST_TIMER" ∨ s = "FIRST_TIME_CONTRIBUTOR" ∨ s = "NONE"))
      ∧ (getContributorPriority s = 1 ∨ getContributorPriority s = 2) := by
  intro s
  by_cases h : s = "FIRST_TIMER" ∨ s = "FIRST_TIME_CONTRIBUTOR" ∨ s = "NONE"
  · have hc : getContributorPriority s = 1 := by
      rcases h with rfl | rfl | rfl <;> rfl
    rw [hc]
    exact ⟨by simp [h], by simp [h], Or.inl rfl⟩
  · have hc : getContributorPriority s = 2 := by
      simp only [getContributorPriority]
      rw [if_neg]
      simp only [List.contains_cons, List.contains_nil, Bool.or_eq_true,
        beq_iff_eq]
      push_neg at h
      simp [h.1, h.2.1, h.2.2]
    rw [hc]
    exact ⟨by simp [h], by simp [h], Or.inr rfl⟩

/-- C5 counterexample: the extractor does not deduplicate — two
references to the same pull request yield the identifier twice, while
the spec's unique-first-occurrence output yields it once. -/
theorem extractor_counterexample :
    allPRNumbers [some "x/pull/5", some "x/pull/5"] none = [5, 5]
    ∧ specExtractorOutput [some "x/pull/5", some "x/pull/5"] none = [5]
    ∧ allPRNumbers [some "x/pull/5", some "x/pull/5"] none ≠
        specExtractorOutput [some "x/pull/5", some "x/pull/5"] none := by
  refine ⟨by decide, by decide, by decide⟩

/-- C5 amended: the extractor truncates the raw reference list to
`maxPRs` (50 with a credential, 10 without) before extraction, then
outputs, in order, the identifiers of the well-formed references among
those, keeping duplicates (and dropping the falsy identifier 0);
malformed references contribute nothing and raise no error. -/
theorem extractor_amended (hrefs : List (Option String))
    (githubToken : Option String) :
    allPRNumbers hrefs githubToken =
      (((hrefs.take (maxPRs githubToken)).map extractPRNumber).filterMap id).filter
        (fun n => decide (n ≠ 0))
    ∧ (allPRNumbers hrefs githubToken).length ≤ maxPRs githubToken
    ∧ allPRNumbers hrefs githubToken <+
        ((hrefs.map extractPRNumber).filterMap id).filter (fun n => decide (n ≠ 0))
    ∧ ∀ n ∈ allPRNumbers hrefs githubToken,
        n ≠ 0 ∧ ∃ h ∈ hrefs, extractPRNumber h = some n := by
  refine ⟨rfl, ?_, ?_, ?_⟩
  · calc (allPRNumbers hrefs githubToken).length
        ≤ (((hrefs.take (maxPRs githubToken)).map extractPRNumber).filterMap id).length :=
          List.length_filter_le _ _
      _ ≤ ((hrefs.take (maxPRs githubToken)).map extractPRNumber).length :=
          List.length_filterMap_le _ _
      _ = (hrefs.take (maxPRs githubToken)).length := List.length_map _ _
      _ ≤ maxPRs githubToken := List.length_take_le _ _
  · exact (((List.take_sublist _ hrefs).map extractPRNumber).filterMap id).filter _
  · intro n hn
    rcases List.mem_filter.mp hn with ⟨hfm, hdec⟩
    refine ⟨of_decide_eq_true hdec, ?_⟩
    rcases List.mem_filterMap.mp hfm with ⟨o, ho, hid⟩
    rcases List.mem_map.mp ho with ⟨h, hh, rfl⟩
    exact ⟨h, List.mem_of_mem_take hh, hid⟩

/-- A concrete record used by witnesses and counterexamples. -/
def sampleRecord : PRRecord := ⟨1, "MEMBER", "2024-01-01", "alice"⟩

/-- A cache already at the 200-entry capacity, whose entries carry a
newer timestamp (1000) than the upcoming put (0). -/
def overfullCache : Cache :=
  (List.range 200).map (fun i => (i + 1, ⟨sampleRecord, 1000⟩))

set_option maxRecDepth 400000 in
/-- C3 counterexample: a put into a full cache can evict the entry just
written (capacity eviction keeps the 150 newest timestamps, and all 200
existing entries are newer), so the very next get — at age 0, far below
the TTL — returns absence instead of the record. -/
theorem cache_get_after_put_counterexample :
    overfullCache.length = 200
    ∧ (0 : Nat) - 0 < cacheExpiry
    ∧ (getFromCache 0 0 (setCache 0 sampleRecord 0 overfullCache)).1 = none := by
  refine ⟨by decide, by decide, by decide⟩

/-- C3 amended: provided the put does not itself overflow capacity (at
most 200 entries counting the new one) and the cache's keys are unique
(the JS `Map` invariant), a get within TTL returns the record just put;
once the age reaches TTL, the get deletes the entry, returns absence,
and every later get for that identifier also returns absence; get is a
total function. -/
theorem cache_get_after_put_amended (i : Nat) (r : PRRecord) (now t : Nat)
    (c : Cache) (hkeys : (c.map Prod.fst).Nodup)
    (hcap : (jsMapSet i (⟨r, now⟩ : CacheEntry) c).length ≤ 200) :
    (t - now < cacheExpiry →
      (getFromCache i t (setCache i r now c)).1 = some r)
    ∧ (cacheExpiry ≤ t - now →
        (getFromCache i t (setCache i r now c)).1 = none
        ∧ jsMapGet i (getFromCache i t (setCache i r now c)).2 = none
        ∧ ∀ t2,
            (getFromCache i t2 (getFromCache i t (setCache i r now c)).2).1 =
              none) := by
  have hset : setCache i r now c = jsMapSet i (⟨r, now⟩ : CacheEntry) c := by
    unfold setCache
    exact saveCacheToStorage_of_le hcap
  have hget : jsMapGet i (setCache i r now c) = some ⟨r, now⟩ := by
    rw [hset]
    exact jsMapGet_set_self i _ c
  constructor
  · intro hfresh
    simp [getFromCache, hget, hfresh]
  · intro hexp
    have habs :
        jsMapGet i (getFromCache i t (setCache i r now c)).2 = none := by
      simp only [getFromCache, hget]
      rw [if_neg (by omega)]
      refine jsMapGet_save_none ?_
      rw [hset]
      exact jsMapGet_delete_self (jsMapSet_keys_nodup hkeys)
    refine ⟨?_, habs, ?_⟩
    · simp only [getFromCache, hget]
      rw [if_neg (by omega)]
    · intro t2
      generalize hc2 : (getFromCache i t (setCache i r now c)).2 = c2 at habs
      simp [getFromCache, habs]

/-- Witness for C3 amended at a concrete put into the empty cache. -/
theorem cache_get_after_put_amended_witness :
    ((1800000 : Nat) - 0 < cacheExpiry →
      (getFromCache 1 1800000 (setCache 1 sampleRecord 0 [])).1 =
        some sampleRecord)
    ∧ (cacheExpiry ≤ (1800000 : Nat) - 0 →
        (getFromCache 1 1800000 (setCache 1 sampleRecord 0 [])).1 = none
        ∧ jsMapGet 1 (getFromCache 1 1800000 (setCache 1 sampleRecord 0 [])).2 =
            none
        ∧ ∀ t2,
            (getFromCache 1 t2
              (getFromCache 1 1800000 (setCache 1 sampleRecord 0 [])).2).1 =
              none) :=
  cache_get_after_put_amended 1 sampleRecord 0 1800000 [] (by decide) (by decide)

theorem fetchPRDataREST_append (net : Nat → NetResp) (now : Nat) :
    ∀ (l1 l2 : List Nat) (s : PrMap × Cache),
      fetchPRDataREST net now (l1 ++ l2) s =
        match fetchPRDataREST net now l1 s with
        | (none, p, c) => fetchPRDataREST net now l2 (p, c)
        | (some e, p, c) => (some e, p, c) := by
  intro l1
  induction l1 with
  | nil =>
    intro l2 s
    obtain ⟨p, c⟩ := s
    rfl
  | cons id rest ih =>
    intro l2 s
    obtain ⟨p, c⟩ := s
    rcases hgc : getFromCache id now c with ⟨od, c2⟩
    cases od with
    | some d =>
      simp only [List.cons_append, fetchPRDataREST, hgc]
      exact ih l2 _
    | none =>
      cases hfd : fetchPRDetails net id with
      | ok d =>
        simp only [List.cons_append, fetchPRDataREST, hgc, hfd]
        exact ih l2 _
      | error m =>
        by_cases hm : strContains m "403" = true
        · simp only [List.cons_append, fetchPRDataREST, hgc, hfd, hm, if_true]
        · simp only [List.cons_append, fetchPRDataREST, hgc, hfd, hm]
          simp only [Bool.false_eq_true, if_false]
          exact ih l2 _

/-- A network oracle whose failure for identifier 1 is not an HTTP 403
but carries the substring `403` in its status text. -/
def net500 : Nat → NetResp := fun id =>
  if id = 1 then .httpError 500 "x403y" else .ok "MEMBER" "d" "u"

/-- C4 counterexample: a per-item failure that is not a rate-limit
signal (HTTP 500) still aborts the whole sequential iteration when its
message happens to contain the substring `403` — identifier 2 is never
fetched — contradicting "any other per-item failure is logged and the
iteration continues". -/
theorem sequential_nonlimit_abort_counterexample :
    net500 1 = NetResp.httpError 500 "x403y"
    ∧ (500 : Nat) ≠ 403
    ∧ net500 2 = NetResp.ok "MEMBER" "d" "u"
    ∧ fetchPRDataREST net500 0 [1, 2] ([], []) = (some msgAbort, [], [])
    ∧ jsMapGet 2 (fetchPRDataREST net500 0 [1, 2] ([], [])).2.1 = none := by
  exact ⟨rfl, by decide, rfl, by decide, by decide⟩

/-- C4 amended: the sequential loop classifies a per-item failure by a
substring match of its error message against `403`.  Every HTTP 403
produces such a message and aborts the remaining iteration immediately,
surfacing the rate-limit failure with the state (and hence every record
cached before the abort) intact; a failure whose message does not
contain `403` is logged and the iteration continues; a success is
stored in the record map and the cache before continuing. -/
theorem sequential_rate_limit_amended
    (net : Nat → NetResp) (now : Nat) (p : PrMap) (c : Cache)
    (bad oth g : Nat) (rest : List Nat) (st403 mOth : String)
    (assoc created user : String) (pre : List Nat) (p0 : PrMap) (c0 : Cache)
    (hb1 : (getFromCache bad now c).1 = none)
    (hb2 : net bad = .httpError 403 st403)
    (ho1 : (getFromCache oth now c).1 = none)
    (ho2 : fetchPRDetails net oth = .error mOth)
    (ho3 : strContains mOth "403" = false)
    (hg1 : (getFromCache g now c).1 = none)
    (hg2 : net g = .ok assoc created user)
    (hpre : fetchPRDataREST net now pre (p0, c0) = (none, p, c)) :
    fetchPRDataREST net now (bad :: rest) (p, c) =
      (some msgAbort, p, (getFromCache bad now c).2)
    ∧ fetchPRDataREST net now (oth :: rest) (p, c) =
        fetchPRDataREST net now rest (p, (getFromCache oth now c).2)
    ∧ fetchPRDataREST net now (g :: rest) (p, c) =
        fetchPRDataREST net now rest
          (jsMapSet g (⟨g, assoc, created, user⟩ : PRRecord) p,
            setCache g ⟨g, assoc, created, user⟩ now (getFromCache g now c).2)
    ∧ fetchPRDataREST net now (pre ++ bad :: rest) (p0, c0) =
        (some msgAbort, p, (getFromCache bad now c).2) := by
  have habort : fetchPRDataREST net now (bad :: rest) (p, c) =
      (some msgAbort, p, (getFromCache bad now c).2) := by
    rcases hgc : getFromCache bad now c with ⟨ob, c2⟩
    rw [hgc] at hb1
    simp only at hb1
    subst hb1
    have hdet : fetchPRDetails net bad = .error msg403 := by
      simp [fetchPRDetails, hb2]
    simp only [fetchPRDataREST, hgc, hdet]
    rw [if_pos (by decide)]
  refine ⟨habort, ?_, ?_, ?_⟩
  · rcases hgc : getFromCache oth now c with ⟨ob, c2⟩
    rw [hgc] at ho1
    simp only at ho1
    subst ho1
    simp only [fetchPRDataREST, hgc, ho2, ho3]
    simp only [Bool.false_eq_true, if_false]
  · rcases hgc : getFromCache g now c with ⟨ob, c2⟩
    rw [hgc] at hg1
    simp only at hg1
    subst hg1
    have hdet : fetchPRDetails net g = .ok ⟨g, assoc, created, user⟩ := by
      simp [fetchPRDetails, hg2]
    simp only [fetchPRDataREST, hgc, hdet]
  · rw [fetchPRDataREST_append net now pre (bad :: rest) (p0, c0), hpre]
    exact habort

/-- Witness for C4 amended with a concrete oracle and identifiers. -/
def netMixed : Nat → NetResp := fun id =>
  if id = 1 then .httpError 403 "Forbidden"
  else if id = 2 then .httpError 404 "Not Found"
  else .ok "NONE" "d" "u"

theorem sequential_rate_limit_amended_witness :
    fetchPRDataREST netMixed 0 (1 :: [9]) ([], []) =
      (some msgAbort, [], (getFromCache 1 0 []).2)
    ∧ fetchPRDataREST netMixed 0 (2 :: [9]) ([], []) =
        fetchPRDataREST netMixed 0 [9] ([], (getFromCache 2 0 []).2)
    ∧ fetchPRDataREST netMixed 0 (3 :: [9]) ([], []) =
        fetchPRDataREST netMixed 0 [9]
          (jsMapSet 3 (⟨3, "NONE", "d", "u"⟩ : PRRecord) [],
            setCache 3 ⟨3, "NONE", "d", "u"⟩ 0 (getFromCache 3 0 []).2)
    ∧ fetchPRDataREST netMixed 0 ([] ++ 1 :: [9]) ([], []) =
        (some msgAbort, [], (getFromCache 1 0 []).2) :=
  sequential_rate_limit_amended netMixed 0 [] [] 1 2 3 [9] "Forbidden"
    "GitHub API error: 404 - Not Found" "NONE" "d" "u" [] [] []
    rfl rfl rfl rfl (by decide) rfl rfl rfl

/-- C7: when the batch strategy is selected (credential present, more
than 3 outstanding identifiers) and the batch fails — transport failure
or a semantic error payload — nothing is committed (the state comes
back untouched) and the sequential strategy runs over exactly the same
identifier set and the same untouched state. -/
theorem batch_failure_fallback
    (githubToken : Option String) (gresp : GqlResp) (net : Nat → NetResp)
    (now : Nat) (ids : List Nat) (p : PrMap) (c : Cache)
    (htok : githubToken.isSome = true) (hlen : 3 < ids.length)
    (hfail : gqlFails gresp = true) :
    (∃ m, fetchPRDataGraphQL gresp now ids p c = (some m, p, c))
    ∧ fetchDispatch githubToken gresp net now ids p c =
        fetchPRDataREST net now ids (p, c) := by
  have hcond : (githubToken.isSome && decide (ids.length > 3)) = true := by
    simp [htok, hlen]
  cases gresp with
  | transportFail s st =>
    refine ⟨⟨_, rfl⟩, ?_⟩
    simp only [fetchDispatch, hcond, if_true, fetchPRDataGraphQL]
  | payload errs results =>
    cases errs with
    | some e =>
      refine ⟨⟨_, rfl⟩, ?_⟩
      simp only [fetchDispatch, hcond, if_true, fetchPRDataGraphQL]
    | none => simp [gqlFails] at hfail

/-- Witness for C7 at a concrete failing batch over 4 identifiers. -/
theorem batch_failure_fallback_witness :
    (∃ m, fetchPRDataGraphQL (.transportFail 500 "Internal Server Error") 7
        [1, 2, 3, 4] [] [] = (some m, [], []))
    ∧ fetchDispatch (some "tok") (.transportFail 500 "Internal Server Error")
        net500 7 [1, 2, 3, 4] [] [] =
        fetchPRDataREST net500 7 [1, 2, 3, 4] ([], []) :=
  batch_failure_fallback (some "tok") (.transportFail 500 "Internal Server Error")
    net500 7 [1, 2, 3, 4] [] [] rfl (by decide) rfl

/-- C8: a trigger outside a GitHub pull-request listing fails
immediately with an unchanged state and no dependence on any fetch
oracle; the `'default'` order short-circuits to `restoreDefaultOrder`
with no fetch (the result is the same for any two fetch oracles); and
every response is a success/message pair drawn from the handler's fixed
taxonomy. -/
theorem handler_contract
    (url url2 url3 sortOrder sortOrder3 : String) (githubToken : Option String)
    (hrefs hrefs3 : List (Option String)) (gresp gresp2 gresp3 : GqlResp)
    (net net2 net3 : Nat → NetResp) (now now3 : Nat) (st st3 : SessionState)
    (hctx : (strContains url "github.com" && strContains url "/pulls") = false)
    (hctx2 : (strContains url2 "github.com" && strContains url2 "/pulls") = true) :
    handleSortRequest url sortOrder githubToken hrefs gresp net now st =
      (⟨false, "Not on a GitHub pull requests page"⟩, st)
    ∧ handleSortRequest url2 "default" githubToken hrefs gresp net now st =
        (⟨true, "Restored to default order"⟩,
          { st with sortOrder := "default",
                    container := restoreDefaultOrder st.container })
    ∧ handleSortRequest url2 "default" githubToken hrefs gresp net now st =
        handleSortRequest url2 "default" githubToken hrefs gresp2 net2 now st
    ∧ ((handleSortRequest url3 sortOrder3 githubToken hrefs3 gresp3 net3 now3 st3).1 =
          ⟨false, "Not on a GitHub pull requests page"⟩
        ∨ (handleSortRequest url3 sortOrder3 githubToken hrefs3 gresp3 net3 now3 st3).1 =
            ⟨true, "Restored to default order"⟩
        ∨ (handleSortRequest url3 sortOrder3 githubToken hrefs3 gresp3 net3 now3 st3).1 =
            ⟨true, "Sorted by new contributors successfully!"⟩
        ∨ (handleSortRequest url3 sortOrder3 githubToken hrefs3 gresp3 net3 now3 st3).1 =
            ⟨true, "Sorted by existing contributors successfully!"⟩
        ∨ ∃ e, (handleSortRequest url3 sortOrder3 githubToken hrefs3 gresp3 net3 now3 st3).1 =
            ⟨false, "Error sorting PRs: " ++ e⟩) := by
  refine ⟨?_, ?_, ?_, ?_⟩
  · simp [handleSortRequest, hctx]
  · simp [handleSortRequest, hctx2]
  · simp [handleSortRequest, hctx2]
  · by_cases hc : (strContains url3 "github.com" && strContains url3 "/pulls") = true
    · simp only [handleSortRequest, hc, Bool.not_true]
      simp only [Bool.false_eq_true, if_false]
      by_cases hd : (sortOrder3 == "default") = true
      · simp [hd]
      · simp only [hd]
        simp only [Bool.false_eq_true, if_false]
        rcases hf : fetchPRData hrefs3 githubToken gresp3 net3 now3 st3.prData
            st3.cache with ⟨err, p2, c2⟩
        cases err with
        | some e =>
          refine Or.inr (Or.inr (Or.inr (Or.inr ⟨e, ?_⟩)))
          simp
        | none =>
          by_cases hn : (sortOrder3 == "new-first") = true
          · refine Or.inr (Or.inr (Or.inl ?_))
            simp [hn]
          · refine Or.inr (Or.inr (Or.inr (Or.inl ?_)))
            simp [hn]
    · refine Or.inl ?_
      simp only [Bool.not_eq_true] at hc
      simp [handleSortRequest, hc]

/-- Witness for C8 at concrete urls and oracles. -/
theorem handler_contract_witness :
    handleSortRequest "https://example.com" "new-first" none []
      (.transportFail 500 "x") net500 0 ⟨[], [], "default", ⟨false, []⟩⟩ =
      (⟨false, "Not on a GitHub pull requests page"⟩,
        ⟨[], [], "default", ⟨false, []⟩⟩)
    ∧ handleSortRequest "https://github.com/o/r/pulls" "default" none []
        (.transportFail 500 "x") net500 0 ⟨[], [], "default", ⟨false, []⟩⟩ =
        (⟨true, "Restored to default order"⟩,
          { (⟨[], [], "default", ⟨false, []⟩⟩ : SessionState) with
              sortOrder := "default",
              container := restoreDefaultOrder (⟨false, []⟩ : Container) })
    ∧ handleSortRequest "https://github.com/o/r/pulls" "default" none []
        (.transportFail 500 "x") net500 0 ⟨[], [], "default", ⟨false, []⟩⟩ =
        handleSortRequest "https://github.com/o/r/pulls" "default" none []
          (.payload none (fun _ => none)) netMixed 0
          ⟨[], [], "default", ⟨false, []⟩⟩
    ∧ ((handleSortRequest "https://github.com/o/r/pulls" "new-first" none []
          (.transportFail 500 "x") net500 0
          ⟨[], [], "default", ⟨false, []⟩⟩).1 =
            ⟨false, "Not on a GitHub pull requests page"⟩
        ∨ (handleSortRequest "https://github.com/o/r/pulls" "new-first" none []
            (.transportFail 500 "x") net500 0
            ⟨[], [], "default", ⟨false, []⟩⟩).1 =
              ⟨true, "Restored to default order"⟩
        ∨ (handleSortRequest "https://github.com/o/r/pulls" "new-first" none []
            (.transportFail 500 "x") net500 0
            ⟨[], [], "default", ⟨false, []⟩⟩).1 =
              ⟨true, "Sorted by new contributors successfully!"⟩
        ∨ (handleSortRequest "https://github.com/o/r/pulls" "new-first" none []
            (.transportFail 500 "x") net500 0
            ⟨[], [], "default", ⟨false, []⟩⟩).1 =
              ⟨true, "Sorted by existing contributors successfully!"⟩
        ∨ ∃ e, (handleSortRequest "https://github.com/o/r/pulls" "new-first" none []
            (.transportFail 500 "x") net500 0
            ⟨[], [], "default", ⟨false, []⟩⟩).1 =
              ⟨false, "Error sorting PRs: " ++ e⟩) :=
  handler_contract "https://example.com" "https://github.com/o/r/pulls"
    "https://github.com/o/r/pulls" "new-first" "new-first" none [] []
    (.transportFail 500 "x") (.payload none (fun _ => none))
    (.transportFail 500 "x") net500 netMixed net500 0 0
    ⟨[], [], "default", ⟨false, []⟩⟩ ⟨[], [], "default", ⟨false, []⟩⟩
    (by decide) (by decide)

theorem loadCachedData_preserves {i : Nat} {d : PRRecord} (now : Nat) :
    ∀ (l : List Nat) (p : PrMap) (c : Cache), jsMapGet i p = some d →
      jsMapGet i (loadCachedData now l p c).1 = some d := by
  intro l
  induction l with
  | nil => intro p c hp; exact hp
  | cons n t ih =>
    intro p c hp
    by_cases hs : (jsMapGet n p).isSome = true
    · simp only [loadCachedData, hs, if_true]
      exact ih p c hp
    · simp only [loadCachedData, hs]
      simp only [Bool.false_eq_true, if_false]
      rcases hgc : getFromCache n now c with ⟨od, c2⟩
      cases od with
      | some dd =>
        have hni : n ≠ i := by
          rintro rfl
          rw [hp] at hs
          exact hs rfl
        exact ih _ c2 (by rw [jsMapGet_set_ne hni]; exact hp)
      | none => exact ih p c2 hp

theorem fetchPRDataREST_get_preserved {i : Nat} (net : Nat → NetResp)
    (now : Nat) :
    ∀ (ids : List Nat) (p : PrMap) (c : Cache), i ∉ ids →
      jsMapGet i (fetchPRDataREST net now ids (p, c)).2.1 = jsMapGet i p := by
  intro ids
  induction ids with
  | nil => intro p c _; rfl
  | cons id rest ih =>
    intro p c hni
    have hid : id ≠ i := fun h => hni (h ▸ List.mem_cons_self id rest)
    have hrest : i ∉ rest := fun h => hni (List.mem_cons_of_mem id h)
    rcases hgc : getFromCache id now c with ⟨od, c2⟩
    cases od with
    | some dd =>
      simp only [fetchPRDataREST, hgc]
      rw [ih _ c2 hrest, jsMapGet_set_ne hid]
    | none =>
      cases hfd : fetchPRDetails net id with
      | ok dd =>
        simp only [fetchPRDataREST, hgc, hfd]
        rw [ih _ _ hrest, jsMapGet_set_ne hid]
      | error m =>
        by_cases hm : strContains m "403" = true
        · simp only [fetchPRDataREST, hgc, hfd, hm, if_true]
        · simp only [fetchPRDataREST, hgc, hfd, hm]
          simp only [Bool.false_eq_true, if_false]
          exact ih p c2 hrest

theorem commitGqlResults_get_preserved {i : Nat}
    (results : Nat → Option PRRecord) (now : Nat) :
    ∀ (ids : List Nat) (index : Nat) (p : PrMap) (c : Cache), i ∉ ids →
      jsMapGet i (commitGqlResults results now index ids (p, c)).1 =
        jsMapGet i p := by
  intro ids
  induction ids with
  | nil => intro index p c _; rfl
  | cons id rest ih =>
    intro index p c hni
    have hid : id ≠ i := fun h => hni (h ▸ List.mem_cons_self id rest)
    have hrest : i ∉ rest := fun h => hni (List.mem_cons_of_mem id h)
    cases hr : results index with
    | some dd =>
      simp only [commitGqlResults, hr]
      rw [ih _ _ _ hrest, jsMapGet_set_ne hid]
    | none =>
      simp only [commitGqlResults, hr]
      exact ih _ p c hrest

theorem fetchDispatch_get_preserved {i : Nat} (githubToken : Option String)
    (gresp : GqlResp) (net : Nat → NetResp) (now : Nat) (ids : List Nat)
    (p : PrMap) (c : Cache) (h : i ∉ ids) :
    jsMapGet i (fetchDispatch githubToken gresp net now ids p c).2.1 =
      jsMapGet i p := by
  by_cases hcond : (githubToken.isSome && decide (ids.length > 3)) = true
  · simp only [fetchDispatch, hcond, if_true]
    cases gresp with
    | transportFail s st =>
      simp only [fetchPRDataGraphQL]
      exact fetchPRDataREST_get_preserved net now ids p c h
    | payload errs results =>
      cases errs with
      | some e =>
        simp only [fetchPRDataGraphQL]
        exact fetchPRDataREST_get_preserved net now ids p c h
      | none =>
        simp only [fetchPRDataGraphQL]
        exact commitGqlResults_get_preserved results now ids 0 p c h
  · simp only [fetchDispatch, hcond]
    simp only [Bool.false_eq_true, if_false]
    exact fetchPRDataREST_get_preserved net now ids p c h

theorem fetchPRDataREST_net_congr {net net2 : Nat → NetResp} (now : Nat) :
    ∀ (ids : List Nat) (s : PrMap × Cache), (∀ id ∈ ids, net id = net2 id) →
      fetchPRDataREST net now ids s = fetchPRDataREST net2 now ids s := by
  intro ids
  induction ids with
  | nil => intro s _; rfl
  | cons id rest ih =>
    intro s h
    obtain ⟨p, c⟩ := s
    have hdet : fetchPRDetails net id = fetchPRDetails net2 id := by
      unfold fetchPRDetails
      rw [h id (List.mem_cons_self id rest)]
    have hrest : ∀ j ∈ rest, net j = net2 j :=
      fun j hj => h j (List.mem_cons_of_mem id hj)
    rcases hgc : getFromCache id now c with ⟨od, c2⟩
    cases od with
    | some dd =>
      simp only [fetchPRDataREST, hgc]
      exact ih _ hrest
    | none =>
      cases hfd : fetchPRDetails net2 id with
      | ok dd =>
        simp only [fetchPRDataREST, hgc, hfd, hdet.trans hfd]
        exact ih _ hrest
      | error m =>
        by_cases hm : strContains m "403" = true
        · simp only [fetchPRDataREST, hgc, hfd, hdet.trans hfd, hm, if_true]
        · simp only [fetchPRDataREST, hgc, hfd, hdet.trans hfd, hm]
          simp only [Bool.false_eq_true, if_false]
          exact ih _ hrest

theorem fetchDispatch_net_congr (githubToken : Option String) (gresp : GqlResp)
    {net net2 : Nat → NetResp} (now : Nat) (ids : List Nat) (p : PrMap)
    (c : Cache) (h : ∀ id ∈ ids, net id = net2 id) :
    fetchDispatch githubToken gresp net now ids p c =
      fetchDispatch githubToken gresp net2 now ids p c := by
  by_cases hcond : (githubToken.isSome && decide (ids.length > 3)) = true
  · simp only [fetchDispatch, hcond, if_true]
    rcases hg : fetchPRDataGraphQL gresp now ids p c with ⟨err, p2, c2⟩
    cases err with
    | some e => exact fetchPRDataREST_net_congr now ids (p2, c2) h
    | none => rfl
  · simp only [fetchDispatch, hcond]
    simp only [Bool.false_eq_true, if_false]
    exact fetchPRDataREST_net_congr now ids (p, c) h

/-- C10: an identifier whose record already sits in the in-memory
record map is never fetched again: it is excluded from
`prNumbersToFetch`, its record survives the whole fetch run unchanged,
and the run's outcome does not depend on what the network would answer
for it — no matter how stale or absent its cache entry is (TTL is
enforced on the cache store only, never on `prData`). -/
theorem prdata_reuse_no_refetch
    (hrefs : List (Option String)) (githubToken : Option String)
    (gresp : GqlResp) (net net2 : Nat → NetResp) (now : Nat)
    (p : PrMap) (c : Cache) (i : Nat) (d : PRRecord)
    (hp : jsMapGet i p = some d)
    (hnet : ∀ j, j ≠ i → net j = net2 j) :
    i ∉ prNumbersToFetch hrefs githubToken now p c
    ∧ jsMapGet i (fetchPRData hrefs githubToken gresp net now p c).2.1 = some d
    ∧ fetchPRData hrefs githubToken gresp net now p c =
        fetchPRData hrefs githubToken gresp net2 now p c := by
  have hp1 : jsMapGet i (afterCacheLoad hrefs githubToken now p c).1 = some d :=
    loadCachedData_preserves now _ p _ hp
  have hni : i ∉ prNumbersToFetch hrefs githubToken now p c := by
    intro hmem
    rcases List.mem_filter.mp hmem with ⟨_, hdec⟩
    rw [hp1] at hdec
    simp at hdec
  refine ⟨hni, ?_, ?_⟩
  · simp only [fetchPRData]
    by_cases he : (prNumbersToFetch hrefs githubToken now p c).isEmpty = true
    · simp only [he, if_true]
      exact hp1
    · simp only [he]
      simp only [Bool.false_eq_true, if_false]
      rw [fetchDispatch_get_preserved githubToken gresp net now _ _ _ hni]
      exact hp1
  · simp only [fetchPRData]
    by_cases he : (prNumbersToFetch hrefs githubToken now p c).isEmpty = true
    · simp [he]
    · simp only [he]
      simp only [Bool.false_eq_true, if_false]
      exact fetchDispatch_net_congr githubToken gresp now _ _ _
        (fun id hid => hnet id (fun hidi => hni (hidi ▸ hid)))

/-- Two oracles that differ only at identifier 1. -/
def netA : Nat → NetResp := fun j =>
  if j = 1 then .httpError 403 "f" else .ok "NONE" "d" "u"

def netB : Nat → NetResp := fun j =>
  if j = 1 then .ok "COLLABORATOR" "e" "w" else .ok "NONE" "d" "u"

/-- Witness for C10: identifier 1 is in `prData` (with its cache entry
long expired), so the run ignores even a rate-limiting answer for it. -/
theorem prdata_reuse_no_refetch_witness :
    1 ∉ prNumbersToFetch [some "r/pull/1", some "r/pull/2"] none 9999999
      [(1, sampleRecord)] [(1, ⟨sampleRecord, 0⟩)]
    ∧ jsMapGet 1 (fetchPRData [some "r/pull/1", some "r/pull/2"] none
        (.payload none (fun _ => none)) netA 9999999
        [(1, sampleRecord)] [(1, ⟨sampleRecord, 0⟩)]).2.1 = some sampleRecord
    ∧ fetchPRData [some "r/pull/1", some "r/pull/2"] none
        (.payload none (fun _ => none)) netA 9999999
        [(1, sampleRecord)] [(1, ⟨sampleRecord, 0⟩)] =
      fetchPRData [some "r/pull/1", some "r/pull/2"] none
        (.payload none (fun _ => none)) netB 9999999
        [(1, sampleRecord)] [(1, ⟨sampleRecord, 0⟩)] :=
  prdata_reuse_no_refetch [some "r/pull/1", some "r/pull/2"] none
    (.payload none (fun _ => none)) netA netB 9999999
    [(1, sampleRecord)] [(1, ⟨sampleRecord, 0⟩)] 1 sampleRecord rfl
    (by
      intro j hj
      simp [netA, netB, hj])

theorem stampFrom_key_ge :
    ∀ (l : List PRItem) (i : Nat) (x : PRItem), x ∈ stampFrom i l →
      i ≤ originalIndexKey x := by
  intro l
  induction l with
  | nil => intro i x hx; cases hx
  | cons it t ih =>
    intro i x hx
    rcases List.mem_cons.mp hx with rfl | hx
    · simp [originalIndexKey]
    · exact Nat.le_of_succ_le (ih (i + 1) x hx)

theorem stampFrom_pairwise :
    ∀ (l : List PRItem) (i : Nat),
      (stampFrom i l).Pairwise
        (fun a b => originalIndexKey a < originalIndexKey b) := by
  intro l
  induction l with
  | nil => intro i; simp [stampFrom]
  | cons it t ih =>
    intro i
    simp only [stampFrom]
    refine List.pairwise_cons.mpr ⟨?_, ih (i + 1)⟩
    intro x hx
    have := stampFrom_key_ge t (i + 1) x hx
    simp only [originalIndexKey, Option.getD_some] at this ⊢
    omega

theorem stampFrom_length :
    ∀ (l : List PRItem) (i : Nat), (stampFrom i l).length = l.length := by
  intro l
  induction l with
  | nil => intro i; rfl
  | cons it t ih => intro i; simp [stampFrom, ih]

theorem restore_le_iff (a b : PRItem) :
    (decide ((originalIndexKey a : Int) - originalIndexKey b ≤ 0)) = true ↔
      originalIndexKey a ≤ originalIndexKey b := by
  rw [decide_eq_true_eq, sub_nonpos]
  exact Nat.cast_le

theorem applySorting_of_stamped (prData : PrMap) (sortOrder : String)
    {c : Container} (hst : c.originalOrderStamped = true)
    (hne : c.items.isEmpty = false) :
    applySorting prData sortOrder c =
      { originalOrderStamped := true,
        items := jsSortBy
          (fun a b => decide (sortComparator prData sortOrder a b ≤ 0))
          c.items } := by
  simp [applySorting, hne, hst]

theorem applySorting_of_fresh (prData : PrMap) (sortOrder : String)
    {c : Container} (hfresh : c.originalOrderStamped = false)
    (hne : c.items.isEmpty = false) :
    applySorting prData sortOrder c =
      { originalOrderStamped := true,
        items := jsSortBy
          (fun a b => decide (sortComparator prData sortOrder a b ≤ 0))
          (stampItems c.items) } := by
  simp [applySorting, hne, hfresh]

/-- C1: for a collection stamped together on the first `applySorting`
(the container not yet marked), restoring after the sort reproduces the
original display order for every sort order; a later `applySorting`
only permutes the already-stamped items (the stamp is assigned exactly
once), and restoring still reproduces the original order. -/
theorem sort_restore_roundtrip (prData prData2 : PrMap)
    (orderX orderY : String) (c : Container)
    (hfresh : c.originalOrderStamped = false) :
    (restoreDefaultOrder (applySorting prData orderX c)).items =
      stampItems c.items
    ∧ (applySorting prData2 orderY (applySorting prData orderX c)).items ~
        (applySorting prData orderX c).items
    ∧ (restoreDefaultOrder
        (applySorting prData2 orderY (applySorting prData orderX c))).items =
        stampItems c.items := by
  by_cases hemp : c.items.isEmpty = true
  · have hnil : c.items = [] := by
      cases h : c.items
      · rfl
      · rw [h] at hemp
        simp [List.isEmpty] at hemp
    have h1 : applySorting prData orderX c = c := by
      simp [applySorting, hemp]
    have h2 : applySorting prData2 orderY c = c := by
      simp [applySorting, hemp]
    rw [h1, h2]
    refine ⟨?_, List.Perm.refl _, ?_⟩ <;>
      simp [restoreDefaultOrder, hnil, stampItems, stampFrom, jsSortBy]
  · have hemp2 : c.items.isEmpty = false := by
      cases h : c.items.isEmpty
      · rfl
      · exact absurd h hemp
    have hpair : (stampItems c.items).Pairwise
        (fun a b => originalIndexKey a < originalIndexKey b) :=
      stampFrom_pairwise c.items 0
    have h1 := applySorting_of_fresh prData orderX hfresh hemp2
    have hperm1 : (applySorting prData orderX c).items ~ stampItems c.items := by
      rw [h1]
      exact jsSortBy_perm _ _
    have hrest1 : (restoreDefaultOrder (applySorting prData orderX c)).items =
        stampItems c.items := by
      simp only [restoreDefaultOrder]
      exact jsSortBy_eq_of_perm originalIndexKey restore_le_iff hperm1 hpair
    have hne2 : (applySorting prData orderX c).items.isEmpty = false := by
      have hlen : (applySorting prData orderX c).items.length = c.items.length := by
        rw [hperm1.length_eq, stampItems, stampFrom_length]
      cases h : (applySorting prData orderX c).items with
      | nil =>
        rw [h] at hlen
        cases h2 : c.items with
        | nil => rw [h2] at hemp2; cases hemp2
        | cons a t => rw [h2] at hlen; simp at hlen
      | cons a t => rfl
    have hflag : (applySorting prData orderX c).originalOrderStamped = true := by
      rw [h1]
    have h2 := applySorting_of_stamped prData2 orderY hflag hne2
    have hperm2 :
        (applySorting prData2 orderY (applySorting prData orderX c)).items ~
          (applySorting prData orderX c).items := by
      rw [h2]
      exact jsSortBy_perm _ _
    refine ⟨hrest1, hperm2, ?_⟩
    simp only [restoreDefaultOrder]
    exact jsSortBy_eq_of_perm originalIndexKey restore_le_iff
      (hperm2.trans hperm1) hpair

/-- Witness for C1 on a concrete fresh two-item container. -/
theorem sort_restore_roundtrip_witness :
    (restoreDefaultOrder (applySorting [(1, sampleRecord)] "new-first"
      ⟨false, [⟨some 1, none⟩, ⟨none, some 5⟩]⟩)).items =
      stampItems [⟨some 1, none⟩, ⟨none, some 5⟩]
    ∧ (applySorting [] "existing-first" (applySorting [(1, sampleRecord)]
        "new-first" ⟨false, [⟨some 1, none⟩, ⟨none, some 5⟩]⟩)).items ~
        (applySorting [(1, sampleRecord)] "new-first"
          ⟨false, [⟨some 1, none⟩, ⟨none, some 5⟩]⟩).items
    ∧ (restoreDefaultOrder (applySorting [] "existing-first"
        (applySorting [(1, sampleRecord)] "new-first"
          ⟨false, [⟨some 1, none⟩, ⟨none, some 5⟩]⟩))).items =
        stampItems [⟨some 1, none⟩, ⟨none, some 5⟩] :=
  sort_restore_roundtrip [(1, sampleRecord)] [] "new-first" "existing-first"
    ⟨false, [⟨some 1, none⟩, ⟨none, some 5⟩]⟩ rfl

/-- C6: on an already-stamped container, `applySorting` is a stable
reorder — two items with records of equal tier keep their relative
order — and an item with no available record compares as 0 against
everything, keeps its exact position, and keeps its relative order with
every individual item. -/
theorem applySorting_stability (prData : PrMap) (sortOrder : String)
    (c : Container) (u v m : PRItem) (ru rv : PRRecord)
    (hst : c.originalOrderStamped = true)
    (hu : itemRecord prData u = some ru)
    (hv : itemRecord prData v = some rv)
    (heq : getContributorPriority ru.author_association =
      getContributorPriority rv.author_association)
    (hm : itemRecord prData m = none)
    (hmem : m ∈ c.items) :
    ([u, v] <+ c.items → [u, v] <+ (applySorting prData sortOrder c).items)
    ∧ (∀ y, sortComparator prData sortOrder m y = 0
        ∧ sortComparator prData sortOrder y m = 0)
    ∧ (applySorting prData sortOrder c).items.indexOf m = c.items.indexOf m
    ∧ ∀ x : PRItem,
        ([m, x] <+ c.items → [m, x] <+ (applySorting prData sortOrder c).items)
        ∧ ([x, m] <+ c.items →
            [x, m] <+ (applySorting prData sortOrder c).items) := by
  have hcmp0 : ∀ y, sortComparator prData sortOrder m y = 0
      ∧ sortComparator prData sortOrder y m = 0 := by
    intro y
    rcases hy : itemRecord prData y with _ | dy <;>
      simp [sortComparator, hm, hy]
  by_cases hemp : c.items.isEmpty = true
  · have hnil : c.items = [] := by
      cases h : c.items
      · rfl
      · rw [h] at hemp
        simp [List.isEmpty] at hemp
    rw [hnil] at hmem
    cases hmem
  · have happ : applySorting prData sortOrder c =
        { originalOrderStamped := true,
          items := jsSortBy
            (fun a b => decide (sortComparator prData sortOrder a b ≤ 0))
            c.items } := by
      simp [applySorting, hemp, hst]
    have hle_uv :
        (decide (sortComparator prData sortOrder u v ≤ 0)) = true := by
      rw [decide_eq_true_eq]
      have hcast : (getContributorPriority ru.author_association : Int) =
          getContributorPriority rv.author_association := by
        exact_mod_cast heq
      by_cases ho : (sortOrder == "new-first") = true <;>
        simp [sortComparator, hu, hv, ho, hcast]
    have hle_m : ∀ y, (decide (sortComparator prData sortOrder m y ≤ 0)) = true
        ∧ (decide (sortComparator prData sortOrder y m ≤ 0)) = true := by
      intro y
      rw [decide_eq_true_eq, decide_eq_true_eq, (hcmp0 y).1, (hcmp0 y).2]
      exact ⟨le_refl 0, le_refl 0⟩
    refine ⟨?_, hcmp0, ?_, ?_⟩
    · intro hsub
      rw [happ]
      exact jsSortBy_stable hsub hle_uv
    · rw [happ]
      exact jsSortBy_indexOf hmem
        (fun x _ => ⟨(hle_m x).1, (hle_m x).2⟩)
    · intro x
      constructor
      · intro hsub
        rw [happ]
        exact jsSortBy_stable hsub (hle_m x).1
      · intro hsub
        rw [happ]
        exact jsSortBy_stable hsub (hle_m x).2

/-- A record map giving items 1 and 2 equal tier and item 3 nothing. -/
def prDataC6 : PrMap :=
  [(1, ⟨1, "MEMBER", "d", "u"⟩), (2, ⟨2, "OWNER", "d", "u"⟩)]

/-- Witness for C6 on a concrete stamped three-item container. -/
theorem applySorting_stability_witness :
    ([⟨some 1, some 0⟩, ⟨some 2, some 1⟩] <+
        ([⟨some 1, some 0⟩, ⟨some 2, some 1⟩, ⟨some 3, some 2⟩] : List PRItem) →
      [⟨some 1, some 0⟩, ⟨some 2, some 1⟩] <+
        (applySorting prDataC6 "new-first"
          ⟨true, [⟨some 1, some 0⟩, ⟨some 2, some 1⟩, ⟨some 3, some 2⟩]⟩).items)
    ∧ (∀ y, sortComparator prDataC6 "new-first" ⟨some 3, some 2⟩ y = 0
        ∧ sortComparator prDataC6 "new-first" y ⟨some 3, some 2⟩ = 0)
    ∧ (applySorting prDataC6 "new-first"
        ⟨true, [⟨some 1, some 0⟩, ⟨some 2, some 1⟩, ⟨some 3, some 2⟩]⟩).items.indexOf
          ⟨some 3, some 2⟩ =
        ([⟨some 1, some 0⟩, ⟨some 2, some 1⟩, ⟨some 3, some 2⟩] : List PRItem).indexOf
          ⟨some 3, some 2⟩
    ∧ ∀ x : PRItem,
        ([⟨some 3, some 2⟩, x] <+
            ([⟨some 1, some 0⟩, ⟨some 2, some 1⟩, ⟨some 3, some 2⟩] : List PRItem) →
          [⟨some 3, some 2⟩, x] <+
            (applySorting prDataC6 "new-first"
              ⟨true, [⟨some 1, some 0⟩, ⟨some 2, some 1⟩, ⟨some 3, some 2⟩]⟩).items)
        ∧ ([x, ⟨some 3, some 2⟩] <+
            ([⟨some 1, some 0⟩, ⟨some 2, some 1⟩, ⟨some 3, some 2⟩] : List PRItem) →
          [x, ⟨some 3, some 2⟩] <+
            (applySorting prDataC6 "new-first"
              ⟨true, [⟨some 1, some 0⟩, ⟨some 2, some 1⟩, ⟨some 3, some 2⟩]⟩).items) :=
  applySorting_stability prDataC6 "new-first"
    ⟨true, [⟨some 1, some 0⟩, ⟨some 2, some 1⟩, ⟨some 3, some 2⟩]⟩
    ⟨some 1, some 0⟩ ⟨some 2, some 1⟩ ⟨some 3, some 2⟩
    ⟨1, "MEMBER", "d", "u"⟩ ⟨2, "OWNER", "d", "u"⟩
    rfl rfl rfl rfl rfl (by decide)

end SortPR
